import Mathlib

/-!
Verification of the Language-Server transport and connection-lifecycle manager
of the godot-vscode-plugin repository.

The embedding covers:
* `MessageIO.connect` socket lifecycle (src/lsp/MessageIO.ts, lines 40-137);
* the `MessageIO.write` / drain / connect-flush path (lines 84-87, 103-105, 139-165);
* `MessageIOReader.processMessages` dispatch (lines 214-243);
* `GDScriptLanguageClient` request/response filters, pending-request table,
  `send_request`, `check_workspace`, `on_disconnected`, `disposeClient`;
* `ClientConnectionManager.on_client_status_changed`, `create_new_client`,
  `retry_connect_client`, `retry_callback`, `waitForCapabilities` outcome.

Each subsystem is modelled as an executable state-transition system; machine
ints are `Nat`/`Int`, JS `Map` is an insertion-ordered association list, the
single-threaded event loop is a trace of events executed by a step function
that returns `none` for events that cannot fire in a given state.
-/

namespace GodotLsp

/-! ## Socket lifecycle of `MessageIO.connect` (MessageIO.ts lines 40-137)

A `Sock` is one `new Socket()` created by one `connect` call.  `listeners`
records whether its event handlers are still attached (`removeAllListeners`
clears them), `destroyed` whether `destroy()` was called, `connectedTcp`
whether the TCP "connect" event has been delivered.  Socket ids are creation
indices: the socket created by the n-th `connect` call has id n-1.
The message cache / write path is modelled separately below. -/

structure Sock where
  connectedTcp : Bool
  destroyed : Bool
  listeners : Bool
deriving DecidableEq

structure IoState where
  sockets : List Sock
  current : Option Nat
deriving DecidableEq

def ioInit : IoState := { sockets := [], current := none }

/-- Replace the socket at index `i` (no-op when out of range). -/
def setSockAt (l : List Sock) (i : Nat) (f : Sock → Sock) : List Sock :=
  match l[i]? with
  | some s => l.set i (f s)
  | none => l

/-- `removeAllListeners(); destroy()` on one socket (lines 47-48, 66-67, 113-114, 125-126). -/
def teardownSock (s : Sock) : Sock := { s with listeners := false, destroyed := true }

/-- Events of the socket lifecycle.  `connectCall` is an invocation of
`MessageIO.connect`; the remaining events are deliveries of OS socket events
to the handlers registered in lines 73-135 (they can only fire while the
handlers are attached and the socket is not destroyed). -/
inductive SockEvent
  | connectCall
  | sockConnect (sid : Nat)
  | sockError (sid : Nat)
  | sockClose (sid : Nat)
  | connTimeout (sid : Nat)
deriving DecidableEq

def stepIo (st : IoState) : SockEvent → Option IoState
  | .connectCall =>
    -- lines 45-50: tear down `this.socket` when non-null, then null it;
    -- lines 60-71: create a fresh socket with handlers attached.
    let st1 : IoState :=
      match st.current with
      | some sid => { sockets := setSockAt st.sockets sid teardownSock, current := none }
      | none => st
    some { st1 with sockets := st1.sockets ++ [⟨false, false, true⟩] }
  | .sockConnect sid =>
    match st.sockets[sid]? with
    | some s =>
      -- a TCP connect event reaches the handler of lines 73-91 only while the
      -- socket is live; the handler stores the socket in `this.socket`.
      if s.listeners && !s.destroyed && !s.connectedTcp then
        some { sockets := st.sockets.set sid { s with connectedTcp := true }, current := some sid }
      else none
    | none => none
  | .sockError sid =>
    match st.sockets[sid]? with
    | some s =>
      -- handler of lines 107-120: destroy the local socket, null `this.socket`
      -- only when it is the same socket, emit "disconnected".
      if s.listeners && !s.destroyed then
        some { sockets := st.sockets.set sid (teardownSock s),
               current := if st.current = some sid then none else st.current }
      else none
    | none => none
  | .sockClose sid =>
    match st.sockets[sid]? with
    | some s =>
      -- handler of lines 122-135: same teardown shape as the error handler.
      if s.listeners && !s.destroyed then
        some { sockets := st.sockets.set sid (teardownSock s),
               current := if st.current = some sid then none else st.current }
      else none
    | none => none
  | .connTimeout sid =>
    match st.sockets[sid]? with
    | some s =>
      -- lines 64-69: the connection timeout destroys the local socket but does
      -- not touch `this.socket`; it can only fire before the connect event
      -- (the connect handler clears the timer).
      if s.listeners && !s.destroyed && !s.connectedTcp then
        some { st with sockets := st.sockets.set sid (teardownSock s) }
      else none
    | none => none

def execIo : IoState → List SockEvent → Option IoState
  | st, [] => some st
  | st, e :: tr =>
    match stepIo st e with
    | some st' => execIo st' tr
    | none => none

/-- Number of sockets that are open (TCP-established and not destroyed). -/
def openCount (st : IoState) : Nat :=
  (st.sockets.filter (fun s => s.connectedTcp && !s.destroyed)).length

/-- Which socket an event is a handler invocation of (`connectCall` is none). -/
def firesOn : SockEvent → Option Nat
  | .connectCall => none
  | .sockConnect sid => some sid
  | .sockError sid => some sid
  | .sockClose sid => some sid
  | .connTimeout sid => some sid

def countConnectCalls (tr : List SockEvent) : Nat :=
  (tr.filter (fun e => e = .connectCall)).length

/-- Claim C1 as stated by the spec: along every execution, at most one socket
is open at any time, and no handler of a socket created by an earlier
`connect` call fires after a later `connect` call has begun (the socket an
event fires on is always the one created by the most recent `connect`). -/
def C1claim : Prop :=
  ∀ tr st, execIo ioInit tr = some st →
    openCount st ≤ 1 ∧
    ∀ t1 e t2 sid, tr = t1 ++ e :: t2 → firesOn e = some sid →
      sid + 1 = countConnectCalls t1

/-- A state is settled when every socket that is not destroyed is the socket
currently stored in `this.socket` (no connect attempt is still in flight). -/
def settledB (st : IoState) : Bool :=
  (List.range st.sockets.length).all fun sid =>
    match st.sockets[sid]? with
    | some s => s.destroyed || decide (st.current = some sid)
    | none => true

/-- Checks that every `connectCall` in the trace happens in a settled state
(and that the trace is executable). -/
def settledConnects : IoState → List SockEvent → Bool
  | _, [] => true
  | st, e :: tr =>
    (match e with
     | .connectCall => settledB st
     | _ => true) &&
    (match stepIo st e with
     | some st' => settledConnects st' tr
     | none => false)

/-! ## Write path of `MessageIO` (MessageIO.ts lines 84-87, 103-105, 139-165)

The phase tracks the `connect` lifecycle: `idle` (no connect in progress,
`this.socket` null), `connecting` (between `connect()` entry and the socket
"connect" event, `this.socket` still null), `opened` (`this.socket` set).
`wire` is the sequence of frames actually handed to `socket.write`.  Frames
are identified by their write-call index `nextId`.  `queued` is a history
variable recording every frame that was ever pushed into `messageCache`; it
is bookkeeping for stating the ordering property and does not influence any
transition. -/

inductive WirePhase
  | idle
  | connecting
  | opened
deriving DecidableEq

structure WireState where
  phase : WirePhase
  draining : Bool
  messageCache : List Nat
  wire : List Nat
  queued : List Nat
  nextId : Nat
deriving DecidableEq

def wireInit : WireState :=
  { phase := .idle, draining := false, messageCache := [], wire := [], queued := [], nextId := 0 }

def MAX_MESSAGE_CACHE : Nat := 100

/-- Push into `messageCache` when below the bound, else drop with a warning
(lines 144-148 and 159-163). -/
def cachePush (st : WireState) (m : Nat) : WireState :=
  if st.messageCache.length < MAX_MESSAGE_CACHE then
    { st with messageCache := st.messageCache ++ [m], queued := st.queued ++ [m] }
  else st

inductive WireEvent
  | write (bufferFull : Bool)
  | drain
  | connectStart
  | connectDone
  | disconnect
deriving DecidableEq

def stepWire (st : WireState) : WireEvent → Option WireState
  | .write bufferFull =>
    -- MessageIO.write, lines 139-165; `bufferFull` is the environment's choice
    -- of the return value of `socket.write` (false when the OS buffer filled).
    let m := st.nextId
    let st := { st with nextId := m + 1 }
    some <|
      if st.phase = .opened then
        if st.draining then cachePush st m
        else { st with wire := st.wire ++ [m], draining := bufferFull }
      else cachePush st m
  | .drain =>
    -- lines 103-105: the drain handler only clears the backpressure flag.
    if st.phase = .opened then some { st with draining := false } else none
  | .connectStart =>
    -- lines 40-58: connect() entry tears down any current socket and clears
    -- the stale message cache; `this.draining` is not reset.
    some { st with phase := .connecting, messageCache := [] }
  | .connectDone =>
    -- lines 73-91: on the socket connect event the cache is flushed FIFO
    -- (shift + write in a loop, return values ignored).
    if st.phase = .connecting then
      some { st with phase := .opened, wire := st.wire ++ st.messageCache, messageCache := [] }
    else none
  | .disconnect =>
    -- lines 107-135: error/close null `this.socket`; the cache is retained.
    if st.phase ≠ .idle then some { st with phase := .idle } else none

def execWire : WireState → List WireEvent → Option WireState
  | st, [] => some st
  | st, e :: tr =>
    match stepWire st e with
    | some st' => execWire st' tr
    | none => none

/-- Claim C6 as stated by the spec: frames reach the socket in write-call
order, and a frame that was queued (under backpressure or while disconnected)
is never overtaken on the wire by a frame from a later write call. -/
def C6claim : Prop :=
  ∀ tr st, execWire wireInit tr = some st →
    st.wire.Sorted (· < ·) ∧
    ∀ i j, i ∈ st.queued → j ∈ st.wire → i < j → i ∈ st.wire

/-! ## `MessageIOReader.processMessages` (MessageIO.ts lines 214-243)

Each decoded message is either a response (`"id" in json`, handed to the
possibly-asynchronous `responseFilter` behind an `await`) or a notification
(synchronous `notificationFilter`).  `on_data` calls `processMessages()`
without awaiting it, so while one instance is suspended in
`await responseFilter`, a later chunk starts a second instance that pops the
buffer concurrently.  `waiting` holds the messages of suspended instances;
`resolveAsync k` is the event-loop resolving the k-th pending filter promise
and the instance then invoking `this.callback`. -/

structure RMsg where
  idx : Nat
  isResponse : Bool
deriving DecidableEq

structure ReaderState where
  nextIdx : Nat
  buffer : List RMsg
  waiting : List RMsg
  delivered : List RMsg
deriving DecidableEq

def readerInit : ReaderState :=
  { nextIdx := 0, buffer := [], waiting := [], delivered := [] }

inductive ReaderEvent
  | arrive (isResponse : Bool)
  | deliverSync
  | suspendAsync
  | resolveAsync (k : Nat)
deriving DecidableEq

def stepReader (st : ReaderState) : ReaderEvent → Option ReaderState
  | .arrive isResponse =>
    -- on_data (lines 214-217): append the decoded message, start an instance.
    some { st with buffer := st.buffer ++ [⟨st.nextIdx, isResponse⟩], nextIdx := st.nextIdx + 1 }
  | .deliverSync =>
    -- lines 230-241 with a synchronous notificationFilter: pop and dispatch.
    match st.buffer with
    | m :: rest =>
      if m.isResponse then none
      else some { st with buffer := rest, delivered := st.delivered ++ [m] }
    | [] => none
  | .suspendAsync =>
    -- line 229: `await this.io.responseFilter(json)` suspends the instance.
    match st.buffer with
    | m :: rest =>
      if m.isResponse then some { st with buffer := rest, waiting := st.waiting ++ [m] }
      else none
    | [] => none
  | .resolveAsync k =>
    -- the filter promise of a suspended instance resolves; the instance
    -- resumes and dispatches via `this.callback(json)` (line 241).
    match st.waiting[k]? with
    | some m => some { st with waiting := st.waiting.eraseIdx k, delivered := st.delivered ++ [m] }
    | none => none

def execReader : ReaderState → List ReaderEvent → Option ReaderState
  | st, [] => some st
  | st, e :: tr =>
    match stepReader st e with
    | some st' => execReader st' tr
    | none => none

/-- Claim C7 as stated by the spec: decoded messages are dispatched to the
client callback in arrival order, including when the response filter performs
asynchronous work. -/
def C7claim : Prop :=
  ∀ tr st, execReader readerInit tr = some st →
    (st.delivered.map RMsg.idx).Sorted (· < ·)

/-- A trace in which every incoming message is a notification (every filter
invocation is synchronous). -/
def allSyncTrace (tr : List ReaderEvent) : Bool :=
  tr.all fun e =>
    match e with
    | .arrive isResponse => !isResponse
    | _ => true

/-! ## `GDScriptLanguageClient` filters and the pending-request table

`sentMessages` is a JS `Map` keyed by the request id: an insertion-ordered
association list where `set` overwrites in place and `delete` removes.
Outgoing notifications carry no id and are outside the claims, so messages
are modelled with a `Nat` id. -/

structure PendingEntry where
  method : String
  timestamp : Nat
deriving DecidableEq

structure ReqMessage where
  id : Nat
  method : String
deriving DecidableEq

def mapSet (k : Nat) (v : PendingEntry) (m : List (Nat × PendingEntry)) :
    List (Nat × PendingEntry) :=
  if m.any (fun p => p.1 = k) then m.map (fun p => if p.1 = k then (k, v) else p)
  else m ++ [(k, v)]

def mapDelete (k : Nat) (m : List (Nat × PendingEntry)) : List (Nat × PendingEntry) :=
  m.filter (fun p => p.1 ≠ k)

def mapHas (k : Nat) (m : List (Nat × PendingEntry)) : Bool :=
  m.any (fun p => p.1 = k)

structure CliState where
  rejected : Bool
  sentMessages : List (Nat × PendingEntry)
deriving DecidableEq

def cliInit : CliState := { rejected := false, sentMessages := [] }

/-- `GDScriptLanguageClient.request_filter` (part_000 lines 253-288): when
rejected, forward only "shutdown" and discard the rest; otherwise record the
pending entry with a timestamp, then discard known-unsupported methods.
Returns the forwarded message (`none` is the `false` discard sentinel) and
the updated state. -/
def request_filter (st : CliState) (message : ReqMessage) (now : Nat) :
    Option ReqMessage × CliState :=
  if st.rejected then
    if message.method = "shutdown" then (some message, st)
    else (none, st)
  else
    let st1 := { st with
      sentMessages := mapSet message.id ⟨message.method, now⟩ st.sentMessages }
    if message.method = "workspace/didChangeWatchedFiles" then (none, st1)
    else if message.method = "workspace/symbol" then (none, st1)
    else (some message, st1)

/-- Table effect of `GDScriptLanguageClient.response_filter` (part_000 lines
291-293): look up the pending entry, then delete it unconditionally.  The
payload rewriting (hover markdown, document links) does not touch the table. -/
def response_filter_table (st : CliState) (id : Nat) : CliState :=
  { st with sentMessages := mapDelete id st.sentMessages }

/-- Table effect of `GDScriptLanguageClient.disposeClient` (part_000 line
147): `this.sentMessages.clear()`. -/
def disposeClient_table (st : CliState) : CliState :=
  { st with sentMessages := [] }

/-- `MessageIOWriter.write` (MessageIO.ts lines 253-271): run the request
filter; when it returns the discard sentinel nothing is framed or written,
otherwise the (possibly modified) message is framed and handed to
`io.write`.  The first component is the message that reaches the wire. -/
def writerWrite (st : CliState) (message : ReqMessage) (now : Nat) :
    Option ReqMessage × CliState :=
  match request_filter st message now with
  | (none, st') => (none, st')
  | (some m, st') => (some m, st')

/-- Operations that touch the pending-request table over the client's life. -/
inductive TableOp
  | request (id : Nat) (method : String) (now : Nat)
  | response (id : Nat)
  | dispose
  | reject
deriving DecidableEq

def stepTable (st : CliState) : TableOp → CliState
  | .request id method now => (request_filter st ⟨id, method⟩ now).2
  | .response id => response_filter_table st id
  | .dispose => disposeClient_table st
  | .reject => { st with rejected := true }

def execTable : CliState → List TableOp → CliState
  | st, [] => st
  | st, op :: tr => execTable (stepTable st op) tr

/-- Number of steps of the trace at which the entry for `id` is removed
(present before the step, absent after it). -/
def removals (st : CliState) (id : Nat) : List TableOp → Nat
  | [] => 0
  | op :: tr =>
    (if mapHas id st.sentMessages && !mapHas id (stepTable st op).sentMessages then 1 else 0) +
      removals (stepTable st op) id tr

def requestIds (tr : List TableOp) : List Nat :=
  tr.filterMap fun op =>
    match op with
    | .request id _ _ => some id
    | _ => none

/-! ## `GDScriptLanguageClient.send_request` (part_000 lines 213-219)

JS semantics: the body is `try { return this.sendRequest(method, params); }
catch { log.warn(...) }` inside an `async` function.  A synchronous throw of
`this.sendRequest` is caught (the function then returns `undefined`), but a
returned promise is adopted *outside* the `try` block, so its rejection is
not caught and rejects the promise `send_request` returns. -/

inductive JsSettle (R : Type)
  | fulfilledUndef
  | fulfilledVal (v : R)
  | rejectedWith (e : String)
deriving DecidableEq

inductive UnderlyingBehavior (R : Type)
  | throwsSync (e : String)
  | returnsPromise (outcome : JsSettle R)
deriving DecidableEq

def send_request {R : Type} (b : UnderlyingBehavior R) : JsSettle R :=
  match b with
  | .throwsSync _ => .fulfilledUndef
  | .returnsPromise outcome => outcome

/-! ## `ClientConnectionManager` and the client status machine -/

inductive ClientStatus
  | pending
  | disconnected
  | connected
  | rejected
deriving DecidableEq

inductive TargetLsp
  | headless
  | editor
deriving DecidableEq

inductive ManagerStatus
  | initializing
  | initializingLsp
  | pending
  | pendingLsp
  | disconnected
  | connected
  | retrying
  | wrongWorkspace
  | initializingClient
deriving DecidableEq

/-- The fields of a `GDScriptLanguageClient` instance that the connection
lifecycle reads and writes. -/
structure ClientHandle where
  port : Int
  lastPortTried : Int
  rejected : Bool
  socketOpen : Bool
  status : ClientStatus
deriving DecidableEq

/-- Outcome of `waitForCapabilities(30000)` (ClientConnectionManager.ts lines
428-448): the capability signal arrived in time, or the 30 s timer rejected. -/
inductive CapabilityWait
  | received
  | timedOut
deriving DecidableEq

structure MgrState where
  status : ManagerStatus
  retry : Bool
  reconnectionAttempts : Nat
  capabilitiesReceived : Bool
  firedLspReady : Bool
  firedLspDisconnected : Bool
  warnedInit : Bool
deriving DecidableEq

structure SysState where
  client : ClientHandle
  mgr : MgrState
deriving DecidableEq

namespace GDScriptLanguageClient

/-- Port selection of `GDScriptLanguageClient.connect` (part_000 lines
175-199): the configured port, overridden by `this.port` when not -1;
targeting the editor with one of the two well-known ports alternates between
6005 and 6008 based on `lastPortTried` when asked to. -/
def selectPort (cfgServerPort : Int) (target : TargetLsp) (c : ClientHandle)
    (tryAlternatePort : Bool) : Int :=
  let port := if c.port ≠ -1 then c.port else cfgServerPort
  if target = .editor then
    if port = 6005 ∨ port = 6008 then
      if tryAlternatePort ∧ c.lastPortTried = 6005 then 6008
      else if tryAlternatePort ∧ c.lastPortTried = 6008 then 6005
      else 6005
    else port
  else port

/-- `GDScriptLanguageClient.connect` (part_000 lines 175-211): clears the
rejected flag, status becomes PENDING, selects the port and records it in
`lastPortTried`.  Returns the port the attempt targets. -/
def connect (cfgServerPort : Int) (target : TargetLsp) (tryAlternatePort : Bool)
    (c : ClientHandle) : Int × ClientHandle :=
  let port := selectPort cfgServerPort target
    { c with rejected := false, status := .pending } tryAlternatePort
  (port, { c with rejected := false, status := .pending, lastPortTried := port })

/-- `GDScriptLanguageClient.on_disconnected` (part_000 lines 455-463). -/
def on_disconnected (c : ClientHandle) : ClientHandle :=
  if c.rejected then { c with status := .rejected }
  else { c with status := .disconnected }

/-- `GDScriptLanguageClient.on_connected` (part_000 lines 448-453). -/
def on_connected (c : ClientHandle) : ClientHandle :=
  { c with status := .connected }

/-- `GDScriptLanguageClient.check_workspace` (part_000 lines 371-379): on a
normalized path mismatch, `this.io.socket.resetAndDestroy()` and set the
rejected flag. -/
def check_workspace (normalize : String → String) (serverPath clientPath : String)
    (c : ClientHandle) : ClientHandle :=
  if normalize serverPath ≠ normalize clientPath then
    { c with socketOpen := false, rejected := true }
  else c

end GDScriptLanguageClient

namespace ClientConnectionManager

/-- `ClientConnectionManager.create_new_client` (ClientConnectionManager.ts
lines 96-122): dispose the old client and construct a fresh
`GDScriptLanguageClient`, preserving only `port`.  The fresh instance has
`lastPortTried = -1`, no socket, and starts PENDING (the constructor's status
assignment fires before the manager subscribes). -/
def create_new_client (c : ClientHandle) : ClientHandle :=
  { port := c.port, lastPortTried := -1, rejected := false, socketOpen := false,
    status := .pending }

/-- `ClientConnectionManager.onCapabilitiesReceived` (lines 416-422). -/
def onCapabilitiesReceived (m : MgrState) : MgrState :=
  { m with capabilitiesReceived := true }

/-- `ClientConnectionManager.on_client_status_changed` (lines 327-408).
`needsStart` is `this.client.needsStart()`, `startFails` whether
`this.client.start()` throws, `cap` the outcome of `waitForCapabilities`. -/
def on_client_status_changed (needsStart startFails : Bool) (cap : CapabilityWait)
    (cs : ClientStatus) (sys : SysState) : SysState :=
  match cs with
  | .pending => { sys with mgr := { sys.mgr with status := .pending } }
  | .connected =>
    let m := { sys.mgr with capabilitiesReceived := false, status := .initializingClient }
    if needsStart then
      if startFails = false ∧ cap = .received then
        -- lines 344-357: start succeeded and capabilities arrived in time.
        { sys with mgr :=
            { m with retry := false, reconnectionAttempts := 0, status := .connected, firedLspReady := true } }
      else
        -- lines 358-366: catch path (start threw or the capability wait
        -- timed out): log a warning, still declare CONNECTED.
        { sys with mgr :=
            { m with warnedInit := true, retry := false, reconnectionAttempts := 0, status := .connected, firedLspReady := true } }
    else
      -- lines 367-373: client already started.
      { sys with mgr :=
          { m with retry := false, reconnectionAttempts := 0, status := .connected } }
  | .disconnected =>
    -- lines 375-398: fire the disconnected event, replace the client, pick
    -- the next status from the retry flag, then re-arm the retry flag.
    let m := { sys.mgr with firedLspDisconnected := true }
    let c' := create_new_client sys.client
    let m := { m with capabilitiesReceived := false }
    let m :=
      if m.retry then
        if c'.port ≠ -1 then { m with status := .initializingLsp }
        else { m with status := .retrying }
      else { m with status := .disconnected }
    { client := c', mgr := { m with retry := true } }
  | .rejected =>
    -- lines 399-402.
    { sys with mgr := { sys.mgr with status := .wrongWorkspace, retry := false } }

/-- `ClientConnectionManager.retry_connect_client` (lines 456-473).  The
first component is the port of the connection attempt it launches (none when
attempts are exhausted or auto-retry is off). -/
def retry_connect_client (cfgServerPort : Int) (autoRetry : Bool) (maxAttempts : Nat)
    (target : TargetLsp) (sys : SysState) : Option Int × SysState :=
  if autoRetry ∧ sys.mgr.reconnectionAttempts ≤ maxAttempts - 1 then
    let attempts := sys.mgr.reconnectionAttempts + 1
    let tryAlternatePort := attempts % 2 = 0
    let pc := GDScriptLanguageClient.connect cfgServerPort target tryAlternatePort sys.client
    (some pc.1,
      { client := pc.2, mgr := { sys.mgr with reconnectionAttempts := attempts, retry := true } })
  else
    (none, { sys with mgr := { sys.mgr with retry := false, status := .disconnected } })

/-- `ClientConnectionManager.retry_callback` (lines 450-454). -/
def retry_callback (cfgServerPort : Int) (autoRetry : Bool) (maxAttempts : Nat)
    (target : TargetLsp) (sys : SysState) : Option Int × SysState :=
  if sys.mgr.retry then retry_connect_client cfgServerPort autoRetry maxAttempts target sys
  else (none, sys)

/-- One failed automatic reconnect attempt: the retry timer fires, the
attempt's socket errors (connection refused), the io "disconnected" event
runs `on_disconnected`, and the manager reacts to the DISCONNECTED status by
replacing the client. -/
def failedAttemptCycle (cfgServerPort : Int) (autoRetry : Bool) (maxAttempts : Nat)
    (target : TargetLsp) (sys : SysState) : Option Int × SysState :=
  match retry_callback cfgServerPort autoRetry maxAttempts target sys with
  | (some p, sys1) =>
    let c1 := GDScriptLanguageClient.on_disconnected sys1.client
    (some p, on_client_status_changed false false .received c1.status
      { sys1 with client := c1 })
  | (none, sys1) => (none, sys1)

/-- Ports targeted by `n` consecutive failed automatic reconnect attempts. -/
def portsTried (cfgServerPort : Int) (autoRetry : Bool) (maxAttempts : Nat)
    (target : TargetLsp) : Nat → SysState → List Int
  | 0, _ => []
  | n + 1, sys =>
    match failedAttemptCycle cfgServerPort autoRetry maxAttempts target sys with
    | (some p, sys') => p :: portsTried cfgServerPort autoRetry maxAttempts target n sys'
    | (none, _) => []

end ClientConnectionManager

/-- Notification message as seen by `notification_filter`. -/
structure NotifMsg where
  method : String
  path : String
deriving DecidableEq

/-- `GDScriptLanguageClient.notification_filter` (part_000 lines 381-405):
dispatch workspace-change notifications to `check_workspace` and capability
notifications to the manager; the message itself is forwarded. -/
def notification_filter (normalize : String → String) (localProjectPath : String)
    (msg : NotifMsg) (sys : SysState) : Option NotifMsg × SysState :=
  let sys :=
    if msg.method = "gdscript_client/changeWorkspace" then
      { sys with client :=
          GDScriptLanguageClient.check_workspace normalize msg.path localProjectPath sys.client }
    else sys
  let sys :=
    if msg.method = "gdscript/capabilities" then
      { sys with mgr := ClientConnectionManager.onCapabilitiesReceived sys.mgr }
    else sys
  (some msg, sys)

/-- Delivery of the socket "close" event after `resetAndDestroy`: the client
`on_disconnected` handler runs and the resulting status event drives the
manager. -/
def socketClosedEvent (needsStart startFails : Bool) (cap : CapabilityWait)
    (sys : SysState) : SysState :=
  let c := GDScriptLanguageClient.on_disconnected sys.client
  ClientConnectionManager.on_client_status_changed needsStart startFails cap
    c.status { sys with client := c }

/-- End-to-end scenario for claim C8: a workspace-change notification arrives
and the socket teardown it triggers is delivered. -/
def workspaceMismatchScenario (normalize : String → String) (localProjectPath : String)
    (msg : NotifMsg) (sys : SysState) : SysState :=
  socketClosedEvent false false .received
    (notification_filter normalize localProjectPath msg sys).2

/-- Claim C5 as stated by the spec: whenever the outgoing-request filter
returns the discard sentinel, the request is never written to the wire and no
pending entry for its id exists in the table afterwards. -/
def C5claim : Prop :=
  ∀ st msg now, (request_filter st msg now).1 = none →
    (writerWrite st msg now).1 = none ∧
    mapHas msg.id (request_filter st msg now).2.sentMessages = false

/-- Invariant of the socket-lifecycle system under settled connects: every
socket other than the most recently created one is destroyed. -/
def invIo (st : IoState) : Prop :=
  ∀ i s, st.sockets[i]? = some s → s.destroyed = false → i + 1 = st.sockets.length

/-- Invariant of the write path: the frames on the wire are an
order-preserving subsequence of the write calls, and while a connect is in
flight the cached frames are a subsequence of the writes after those already
on the wire. -/
def invWire (st : WireState) : Prop :=
  match st.phase with
  | .connecting => ∃ n, n ≤ st.nextId ∧ st.wire.Sublist (List.range n) ∧
      st.messageCache.Sublist (List.range' n (st.nextId - n))
  | _ => st.wire.Sublist (List.range st.nextId)

/-- Invariant of the reader when every filter is synchronous: no instance is
suspended, nothing in the buffer is a response, and delivered + buffered
messages are exactly the arrivals in order. -/
def invReader (st : ReaderState) : Prop :=
  st.waiting = [] ∧ st.buffer.all (fun m => !m.isResponse) = true ∧
  st.delivered.map RMsg.idx ++ st.buffer.map RMsg.idx = List.range st.nextIdx

end GodotLsp

namespace GodotLsp

/-! ### Helper lemmas -/

/-- The writer forwards exactly what the request filter returns. -/
theorem writerWrite_eq_request_filter (st : CliState) (msg : ReqMessage) (now : Nat) :
    writerWrite st msg now = request_filter st msg now := by
  unfold writerWrite
  rcases request_filter st msg now with ⟨o, s⟩
  cases o <;> rfl

/-! ### Claim C4 (code bug)

`send_request` wraps `return this.sendRequest(method, params)` in try/catch
without awaiting, so a rejection of the underlying promise is adopted outside
the `try` block and propagates to the caller instead of being caught and
logged. -/

/-- Claim C4 evaluated at the failing input: when the underlying JSON-RPC
call rejects asynchronously, the promise returned by `send_request` rejects
with the same fault — the caller observes a rejected promise, not an absent
result. -/
theorem C4_rejected_promise_propagates :
    send_request (R := Nat) (.returnsPromise (.rejectedWith "socket closed"))
      = .rejectedWith "socket closed" := rfl

/-! ### Claim C3 (code bug)

`retry_connect_client` computes `tryAlternatePort` as intended, but after
every failed attempt the DISCONNECTED handler replaces the client via
`create_new_client`, which resets `lastPortTried` to -1; `connect` then
always falls into the `port = 6005` default branch, so the alternation the
code's own comments promise never happens on the error-failure path. -/

/-- Claim C3 evaluated at the failing input: editor target, configured port
6005 (ambiguous pair), auto-retry enabled with 10 attempts, starting from the
state just after the initial connection attempt failed; four consecutive
failed automatic reconnect attempts all target port 6005 instead of
alternating 6005, 6008, 6005, 6008. -/
theorem C3_reconnect_ports_do_not_alternate :
    ClientConnectionManager.portsTried 6005 true 10 .editor 4
      ⟨⟨-1, -1, false, false, .pending⟩,
       ⟨.disconnected, true, 0, false, false, true, false⟩⟩
      = [6005, 6005, 6005, 6005] := by decide

/-! ### Claim C5 (corrected) -/

/-- Claim C5 is false on the code: a request discarded because its method is
known-unsupported ("workspace/symbol" here) is never written, but
`request_filter` records its pending entry before the discard check, so the
entry for its id is present in the table afterwards. -/
theorem C5_counterexample : ¬ C5claim := by
  intro h
  have h1 := h cliInit ⟨1, "workspace/symbol"⟩ 0 (by decide)
  exact absurd h1.2 (by decide)

/-- Claim C5 amended: a request discarded by the outgoing-request filter is
never written to the wire; when the discard is because the client is
rejected, the table is untouched, but when the discard is because the method
is known-unsupported, the pending entry recorded before the discard check
remains in the table. -/
theorem C5_amended_discard_never_sent (st : CliState) (msg : ReqMessage) (now : Nat)
    (h : (request_filter st msg now).1 = none) :
    (writerWrite st msg now).1 = none ∧
    (st.rejected = true → (request_filter st msg now).2 = st) ∧
    (st.rejected = false →
      (request_filter st msg now).2.sentMessages
        = mapSet msg.id ⟨msg.method, now⟩ st.sentMessages) := by
  refine ⟨?_, ?_, ?_⟩
  · rw [writerWrite_eq_request_filter]
    exact h
  · intro hr
    unfold request_filter
    simp only [hr, if_true]
    split_ifs <;> rfl
  · intro hr
    unfold request_filter
    simp only [hr, Bool.false_eq_true, if_false]
    split_ifs <;> rfl

/-- Witness for the amended claim C5 at a concrete discarded request. -/
theorem C5_amended_witness :
    (request_filter cliInit ⟨2, "workspace/didChangeWatchedFiles"⟩ 5).1 = none ∧
    ((writerWrite cliInit ⟨2, "workspace/didChangeWatchedFiles"⟩ 5).1 = none ∧
     (cliInit.rejected = true →
       (request_filter cliInit ⟨2, "workspace/didChangeWatchedFiles"⟩ 5).2 = cliInit) ∧
     (cliInit.rejected = false →
       (request_filter cliInit ⟨2, "workspace/didChangeWatchedFiles"⟩ 5).2.sentMessages
         = mapSet 2 ⟨"workspace/didChangeWatchedFiles", 5⟩ cliInit.sentMessages)) :=
  ⟨by decide, C5_amended_discard_never_sent cliInit ⟨2, "workspace/didChangeWatchedFiles"⟩ 5 (by decide)⟩

/-! ### Claim C10 (confirmed) -/

/-- Claim C10: once the client is rejected, the outgoing-request filter
forwards a "shutdown" request unchanged and discards every other request
(it is never written to the wire), and no pending entry is recorded for any
request submitted while rejected (the state is returned untouched). -/
theorem C10_rejected_discards_all_but_shutdown (st : CliState) (msg : ReqMessage)
    (now : Nat) (h : st.rejected = true) :
    request_filter st msg now
      = (if msg.method = "shutdown" then some msg else none, st) ∧
    (msg.method ≠ "shutdown" → (writerWrite st msg now).1 = none) ∧
    (msg.method = "shutdown" → (writerWrite st msg now).1 = some msg) := by
  have e : request_filter st msg now
      = (if msg.method = "shutdown" then some msg else none, st) := by
    unfold request_filter
    simp only [h, if_true]
    split <;> simp_all
  refine ⟨e, ?_, ?_⟩
  · intro hm
    rw [writerWrite_eq_request_filter, e]
    simp [hm]
  · intro hm
    rw [writerWrite_eq_request_filter, e]
    simp [hm]

/-- Witness for claim C10 at concrete rejected-state requests. -/
theorem C10_witness :
    (⟨true, []⟩ : CliState).rejected = true ∧
    (request_filter ⟨true, []⟩ ⟨7, "textDocument/hover"⟩ 0
       = (if ("textDocument/hover" : String) = "shutdown" then some ⟨7, "textDocument/hover"⟩ else none, (⟨true, []⟩ : CliState)) ∧
     (("textDocument/hover" : String) ≠ "shutdown" →
        (writerWrite ⟨true, []⟩ ⟨7, "textDocument/hover"⟩ 0).1 = none) ∧
     (("textDocument/hover" : String) = "shutdown" →
        (writerWrite ⟨true, []⟩ ⟨7, "textDocument/hover"⟩ 0).1 = some ⟨7, "textDocument/hover"⟩)) :=
  ⟨rfl, C10_rejected_discards_all_but_shutdown ⟨true, []⟩ ⟨7, "textDocument/hover"⟩ 0 rfl⟩

end GodotLsp

namespace GodotLsp

/-! ### Claim C9 (confirmed) -/

/-- Claim C9: when the client reaches CONNECTED, the protocol start succeeds
but the capability-announcement wait times out, the Manager still ends in
CONNECTED with a logged warning, resets the reconnection attempt counter to
zero, clears the auto-retry flag, and neither disconnects the client nor
fires the server-lost event. -/
theorem C9_capability_timeout_still_connected (sys : SysState) :
    (ClientConnectionManager.on_client_status_changed true false .timedOut .connected sys).mgr.status = .connected ∧
    (ClientConnectionManager.on_client_status_changed true false .timedOut .connected sys).mgr.reconnectionAttempts = 0 ∧
    (ClientConnectionManager.on_client_status_changed true false .timedOut .connected sys).mgr.retry = false ∧
    (ClientConnectionManager.on_client_status_changed true false .timedOut .connected sys).mgr.warnedInit = true ∧
    (ClientConnectionManager.on_client_status_changed true false .timedOut .connected sys).mgr.firedLspDisconnected
      = sys.mgr.firedLspDisconnected ∧
    (ClientConnectionManager.on_client_status_changed true false .timedOut .connected sys).client = sys.client := by
  simp [ClientConnectionManager.on_client_status_changed]

/-! ### Claim C8 (confirmed) -/

/-- Claim C8: a workspace-change notification whose normalized path differs
from the locally resolved project path makes the client tear down the socket
and transition to REJECTED; the Manager transitions to WRONG_WORKSPACE with
the auto-retry flag cleared, and the retry timer callback launches no
connection attempt from that state. -/
theorem C8_workspace_mismatch_rejects (normalize : String → String)
    (localProjectPath : String) (msg : NotifMsg) (sys : SysState)
    (cfgServerPort : Int) (autoRetry : Bool) (maxAttempts : Nat) (target : TargetLsp)
    (hm : msg.method = "gdscript_client/changeWorkspace")
    (hp : normalize msg.path ≠ normalize localProjectPath)
    (_hs : sys.client.socketOpen = true) :
    (workspaceMismatchScenario normalize localProjectPath msg sys).client.status = .rejected ∧
    (workspaceMismatchScenario normalize localProjectPath msg sys).client.socketOpen = false ∧
    (workspaceMismatchScenario normalize localProjectPath msg sys).mgr.status = .wrongWorkspace ∧
    (workspaceMismatchScenario normalize localProjectPath msg sys).mgr.retry = false ∧
    ClientConnectionManager.retry_callback cfgServerPort autoRetry maxAttempts target
        (workspaceMismatchScenario normalize localProjectPath msg sys)
      = (none, workspaceMismatchScenario normalize localProjectPath msg sys) := by
  unfold workspaceMismatchScenario notification_filter socketClosedEvent
  simp [hm, GDScriptLanguageClient.check_workspace, hp,
    GDScriptLanguageClient.on_disconnected,
    ClientConnectionManager.on_client_status_changed,
    ClientConnectionManager.retry_callback]

/-- Witness for claim C8 at a concrete mismatching notification. -/
theorem C8_witness :
    (⟨"gdscript_client/changeWorkspace", "/p/b"⟩ : NotifMsg).method = "gdscript_client/changeWorkspace" ∧
    id (NotifMsg.path ⟨"gdscript_client/changeWorkspace", "/p/b"⟩) ≠ id "/p/a" ∧
    (⟨⟨-1, 6005, false, true, .connected⟩, ⟨.connected, false, 0, true, true, false, false⟩⟩ : SysState).client.socketOpen = true ∧
    ((workspaceMismatchScenario id "/p/a" ⟨"gdscript_client/changeWorkspace", "/p/b"⟩
        ⟨⟨-1, 6005, false, true, .connected⟩, ⟨.connected, false, 0, true, true, false, false⟩⟩).client.status = .rejected ∧
     (workspaceMismatchScenario id "/p/a" ⟨"gdscript_client/changeWorkspace", "/p/b"⟩
        ⟨⟨-1, 6005, false, true, .connected⟩, ⟨.connected, false, 0, true, true, false, false⟩⟩).client.socketOpen = false ∧
     (workspaceMismatchScenario id "/p/a" ⟨"gdscript_client/changeWorkspace", "/p/b"⟩
        ⟨⟨-1, 6005, false, true, .connected⟩, ⟨.connected, false, 0, true, true, false, false⟩⟩).mgr.status = .wrongWorkspace ∧
     (workspaceMismatchScenario id "/p/a" ⟨"gdscript_client/changeWorkspace", "/p/b"⟩
        ⟨⟨-1, 6005, false, true, .connected⟩, ⟨.connected, false, 0, true, true, false, false⟩⟩).mgr.retry = false ∧
     ClientConnectionManager.retry_callback 6005 true 10 .editor
         (workspaceMismatchScenario id "/p/a" ⟨"gdscript_client/changeWorkspace", "/p/b"⟩
           ⟨⟨-1, 6005, false, true, .connected⟩, ⟨.connected, false, 0, true, true, false, false⟩⟩)
       = (none, workspaceMismatchScenario id "/p/a" ⟨"gdscript_client/changeWorkspace", "/p/b"⟩
           ⟨⟨-1, 6005, false, true, .connected⟩, ⟨.connected, false, 0, true, true, false, false⟩⟩)) :=
  ⟨rfl, by decide,  rfl,
    C8_workspace_mismatch_rejects id "/p/a" ⟨"gdscript_client/changeWorkspace", "/p/b"⟩
      ⟨⟨-1, 6005, false, true, .connected⟩, ⟨.connected, false, 0, true, true, false, false⟩⟩
      6005 true 10 .editor rfl (by decide) rfl⟩

/-! ### Claim C1 (corrected): counterexample

When a second `connect` call begins while the first attempt is still in
flight (its socket not yet connected, so `this.socket` is still null), the
first socket is not torn down: its handlers can still fire, and when both
TCP connections then succeed, two sockets are open at once. -/

/-- Claim C1 is false on the code: after `connect(); connect()` with the
first attempt still in flight, both sockets deliver their connect events and
the resulting state has two open sockets (and the first socket's handler
fired after the second `connect` began). -/
theorem C1_counterexample : ¬ C1claim := by
  intro h
  have h1 := (h [.connectCall, .connectCall, .sockConnect 0, .sockConnect 1]
      ⟨[⟨true, false, true⟩, ⟨true, false, true⟩], some 1⟩ (by decide)).1
  exact absurd h1 (by decide)

/-! ### Claim C6 (corrected): counterexample -/

/-- Claim C6 is false on the code: with an open connection, write 0 fills the
OS buffer (backpressure), write 1 is queued in the cache, drain clears the
flag, and write 2 is then written directly — frame 2 from a later write call
reaches the wire while the earlier queued frame 1 never does. -/
theorem C6_counterexample : ¬ C6claim := by
  intro h
  have h1 := (h [.connectStart, .connectDone, .write true, .write false, .drain, .write false]
      ⟨.opened, false, [1], [0, 2], [1], 3⟩ (by decide)).2 1 2 (by decide) (by decide) (by decide)
  exact absurd h1 (by decide)

/-! ### Claim C7 (corrected): counterexample -/

/-- Claim C7 is false on the code: a response arrives and its asynchronous
response filter suspends; a notification arriving later is dispatched by a
second concurrently running `processMessages` instance before the filter
resolves, so the earlier response is delivered after the later message. -/
theorem C7_counterexample : ¬ C7claim := by
  intro h
  have h1 := h [.arrive true, .suspendAsync, .arrive false, .deliverSync, .resolveAsync 0]
      ⟨2, [], [], [⟨1, false⟩, ⟨0, true⟩]⟩ (by decide)
  exact absurd h1 (by decide)

end GodotLsp

namespace GodotLsp

/-! ### Pending-request table lemmas -/

theorem mapHas_mapSet_iff (k i : Nat) (v : PendingEntry) (m : List (Nat × PendingEntry)) :
    mapHas k (mapSet i v m) = true ↔ (mapHas k m = true ∨ k = i) := by
  unfold mapHas mapSet
  split_ifs with hcond
  · simp only [List.any_eq_true, decide_eq_true_eq, List.mem_map] at hcond ⊢
    constructor
    · rintro ⟨p, ⟨q, hq, rfl⟩, hpk⟩
      by_cases hqi : q.1 = i
      · simp only [hqi, if_pos] at hpk
        exact Or.inr hpk.symm
      · simp only [if_neg hqi] at hpk
        exact Or.inl ⟨q, hq, hpk⟩
    · rintro (⟨q, hq, hqk⟩ | rfl)
      · by_cases hqi : q.1 = i
        · obtain ⟨q0, hq0, hq0i⟩ := hcond
          refine ⟨(i, v), ⟨q0, hq0, by simp [hq0i]⟩, ?_⟩
          rw [← hqk, ← hqi]
        · exact ⟨q, ⟨q, hq, by simp [hqi]⟩, hqk⟩
      · obtain ⟨q0, hq0, hq0i⟩ := hcond
        exact ⟨(k, v), ⟨q0, hq0, by simp [hq0i]⟩, rfl⟩
  · simp only [List.any_eq_true, decide_eq_true_eq, List.mem_append, List.mem_singleton]
    constructor
    · rintro ⟨p, hp | hp, hpk⟩
      · exact Or.inl ⟨p, hp, hpk⟩
      · subst hp
        exact Or.inr hpk.symm
    · rintro (⟨p, hp, hpk⟩ | rfl)
      · exact ⟨p, Or.inl hp, hpk⟩
      · exact ⟨(k, v), Or.inr rfl, rfl⟩

theorem mapHas_mapDelete_iff (k i : Nat) (m : List (Nat × PendingEntry)) :
    mapHas k (mapDelete i m) = true ↔ (mapHas k m = true ∧ k ≠ i) := by
  unfold mapHas mapDelete
  simp only [List.any_eq_true, decide_eq_true_eq, List.mem_filter]
  constructor
  · rintro ⟨p, ⟨hp, hpne⟩, hpk⟩
    exact ⟨⟨p, hp, hpk⟩, by rw [← hpk]; exact_mod_cast hpne⟩
  · rintro ⟨⟨p, hp, hpk⟩, hki⟩
    exact ⟨p, ⟨hp, by simp [hpk, hki]⟩, hpk⟩

theorem stepTable_request_rejected (st : CliState) (i : Nat) (meth : String) (now : Nat)
    (h : st.rejected = true) : stepTable st (.request i meth now) = st := by
  unfold stepTable request_filter
  simp only [h, if_true]
  split_ifs <;> rfl

theorem stepTable_request_sent (st : CliState) (i : Nat) (meth : String) (now : Nat)
    (h : st.rejected = false) :
    (stepTable st (.request i meth now)).sentMessages
      = mapSet i ⟨meth, now⟩ st.sentMessages := by
  unfold stepTable request_filter
  simp only [h, Bool.false_eq_true, if_false]
  split_ifs <;> rfl

theorem stepTable_response_sent (st : CliState) (i : Nat) :
    (stepTable st (.response i)).sentMessages = mapDelete i st.sentMessages := rfl

theorem stepTable_dispose_sent (st : CliState) :
    (stepTable st .dispose).sentMessages = [] := rfl

theorem stepTable_reject_sent (st : CliState) :
    (stepTable st .reject).sentMessages = st.sentMessages := rfl

theorem removals_append (st : CliState) (id : Nat) (t1 t2 : List TableOp) :
    removals st id (t1 ++ t2) = removals st id t1 + removals (execTable st t1) id t2 := by
  induction t1 generalizing st with
  | nil => simp [removals, execTable]
  | cons op t1 ih => simp [removals, execTable, ih, Nat.add_assoc]

theorem removals_le (id : Nat) (tr : List TableOp) :
    ∀ st : CliState, removals st id tr ≤
      (requestIds tr).count id + (if mapHas id st.sentMessages = true then 1 else 0) := by
  induction tr with
  | nil => intro st; simp [removals]
  | cons op tr ih =>
    intro st
    cases op with
    | request i meth now =>
      have hcount : (requestIds (.request i meth now :: tr)).count id
          = (requestIds tr).count id + (if i = id then 1 else 0) := by
        simp [requestIds, List.filterMap_cons, List.count_cons]
      by_cases hr : st.rejected = true
      · rw [removals, stepTable_request_rejected st i meth now hr, hcount]
        have hihst := ih st
        have hz : (if (mapHas id st.sentMessages && !mapHas id st.sentMessages) = true
            then 1 else 0) = 0 := by
          cases hb : mapHas id st.sentMessages <;> simp [hb]
        rw [hz]
        omega
      · have hsent := stepTable_request_sent st i meth now (by simpa using hr)
        have hhas : mapHas id (stepTable st (.request i meth now)).sentMessages = true
            ↔ (mapHas id st.sentMessages = true ∨ id = i) := by
          rw [hsent]
          exact mapHas_mapSet_iff id i ⟨meth, now⟩ st.sentMessages
        have hih := ih (stepTable st (.request i meth now))
        rw [removals, hcount]
        have hind : (if (mapHas id st.sentMessages
            && !mapHas id (stepTable st (.request i meth now)).sentMessages) = true
            then 1 else 0) = 0 := by
          cases hb : mapHas id st.sentMessages
          · simp
          · simp [hhas.mpr (Or.inl hb)]
        rw [hind]
        by_cases hii : i = id
        · have hb1 : (if i = id then 1 else 0) = 1 := if_pos hii
          have hid : (if mapHas id (stepTable st (.request i meth now)).sentMessages = true
              then 1 else 0) ≤ 1 := by split_ifs <;> omega
          omega
        · have heq : mapHas id (stepTable st (.request i meth now)).sentMessages
              = mapHas id st.sentMessages := by
            cases hb : mapHas id st.sentMessages
            · cases hb2 : mapHas id (stepTable st (.request i meth now)).sentMessages
              · rfl
              · rcases hhas.mp hb2 with h2 | h2
                · rw [hb] at h2
                  exact absurd h2 (by simp)
                · exact absurd h2.symm hii
            · exact hhas.mpr (Or.inl hb)
          rw [heq] at hih
          have hb0 : (if i = id then 1 else 0) = 0 := if_neg hii
          omega
    | response i =>
      have hcount : (requestIds (.response i :: tr)).count id = (requestIds tr).count id := by
        simp [requestIds, List.filterMap_cons]
      rw [removals, hcount]
      by_cases hi : id = i
      · subst hi
        have hdel : mapHas id (stepTable st (.response id)).sentMessages = false := by
          rw [stepTable_response_sent]
          cases hb : mapHas id (mapDelete id st.sentMessages)
          · rfl
          · exact absurd ((mapHas_mapDelete_iff id id st.sentMessages).mp hb).2 (by simp)
        have hih := ih (stepTable st (.response id))
        rw [hdel] at hih
        have hih' : removals (stepTable st (.response id)) id tr
            ≤ (requestIds tr).count id := by simpa using hih
        have hindle : (if (mapHas id st.sentMessages
            && !mapHas id (stepTable st (.response id)).sentMessages) = true
            then 1 else 0) ≤ (if mapHas id st.sentMessages = true then 1 else 0) := by
          cases hb : mapHas id st.sentMessages <;> simp [hb, hdel]
        omega
      · have hsame : mapHas id (stepTable st (.response i)).sentMessages
            = mapHas id st.sentMessages := by
          rw [stepTable_response_sent]
          cases hb : mapHas id st.sentMessages
          · cases hb2 : mapHas id (mapDelete i st.sentMessages)
            · rfl
            · have h3 := ((mapHas_mapDelete_iff id i st.sentMessages).mp hb2).1
              rw [hb] at h3
              exact absurd h3 (by simp)
          · exact (mapHas_mapDelete_iff id i st.sentMessages).mpr ⟨hb, hi⟩
        have hih := ih (stepTable st (.response i))
        rw [hsame] at hih
        have hz : (if (mapHas id st.sentMessages
            && !mapHas id (stepTable st (.response i)).sentMessages) = true
            then 1 else 0) = 0 := by
          cases hb : mapHas id st.sentMessages
          · simp [hb]
          · rw [hsame, hb]
            simp
        rw [hz]
        omega
    | dispose =>
      have hcount : (requestIds (.dispose :: tr)).count id = (requestIds tr).count id := by
        simp [requestIds, List.filterMap_cons]
      rw [removals, hcount]
      have hih := ih (stepTable st .dispose)
      have hdel : mapHas id (stepTable st .dispose).sentMessages = false := rfl
      have hih' : removals (stepTable st .dispose) id tr ≤ (requestIds tr).count id := by
        rw [hdel] at hih
        simpa using hih
      have hindle : (if (mapHas id st.sentMessages
          && !mapHas id (stepTable st .dispose).sentMessages) = true
          then 1 else 0) ≤ (if mapHas id st.sentMessages = true then 1 else 0) := by
        cases hb : mapHas id st.sentMessages <;> simp [hb, hdel]
      omega
    | reject =>
      have hcount : (requestIds (.reject :: tr)).count id = (requestIds tr).count id := by
        simp [requestIds, List.filterMap_cons]
      rw [removals, hcount]
      have hsame : mapHas id (stepTable st .reject).sentMessages
          = mapHas id st.sentMessages := rfl
      have hih := ih (stepTable st .reject)
      rw [hsame] at hih
      have hz : (if (mapHas id st.sentMessages
          && !mapHas id (stepTable st .reject).sentMessages) = true
          then 1 else 0) = 0 := by
        rw [hsame]
        cases hb : mapHas id st.sentMessages <;> simp [hb]
      rw [hz]
      omega

theorem removals_pos (id : Nat) (tr : List TableOp) :
    ∀ st : CliState, mapHas id st.sentMessages = true →
      (TableOp.response id ∈ tr ∨ TableOp.dispose ∈ tr) →
      1 ≤ removals st id tr := by
  induction tr with
  | nil => intro st _ hs; simp at hs
  | cons op tr ih =>
    intro st hmem hsettle
    rw [removals]
    cases hrem : mapHas id (stepTable st op).sentMessages
    · simp [hmem, hrem]
    · have h0 : op ≠ .response id := by
        rintro rfl
        rw [stepTable_response_sent] at hrem
        exact absurd ((mapHas_mapDelete_iff id id st.sentMessages).mp hrem).2 (by simp)
      have h1 : op ≠ .dispose := by
        rintro rfl
        exact absurd hrem (by simp [stepTable_dispose_sent, mapHas])
      have hsettle' : TableOp.response id ∈ tr ∨ TableOp.dispose ∈ tr := by
        rcases hsettle with h | h
        · rcases List.mem_cons.mp h with h2 | h2
          · exact absurd h2.symm h0
          · exact Or.inl h2
        · rcases List.mem_cons.mp h with h2 | h2
          · exact absurd h2.symm h1
          · exact Or.inr h2
      have := ih (stepTable st op) hrem hsettle'
      omega

/-! ### Claim C2 (confirmed) -/

/-- Claim C2: over any operation trace with unique request ids, the pending
entry for an id is removed at most once; it is removed exactly once as soon
as a matching response or a disposal occurs while it is present; and the only
operations that can remove a present entry are the incoming-response filter
with the matching id and client disposal. -/
theorem C2_pending_entry_removed_exactly_once (tr : List TableOp) (id : Nat)
    (hnodup : (requestIds tr).Nodup) :
    removals cliInit id tr ≤ 1 ∧
    (∀ k, mapHas id (execTable cliInit (tr.take k)).sentMessages = true →
      (TableOp.response id ∈ tr.drop k ∨ TableOp.dispose ∈ tr.drop k) →
      removals cliInit id tr = 1) ∧
    (∀ st : CliState, ∀ op : TableOp, mapHas id st.sentMessages = true →
      mapHas id (stepTable st op).sentMessages = false →
      op = .response id ∨ op = .dispose) := by
  have hle : removals cliInit id tr ≤ 1 := by
    have h4 := removals_le id tr cliInit
    have hcount := List.nodup_iff_count_le_one.mp hnodup id
    have h0 : mapHas id cliInit.sentMessages = false := rfl
    rw [h0] at h4
    simp only [Bool.false_eq_true, if_false, Nat.add_zero] at h4
    omega
  refine ⟨hle, ?_, ?_⟩
  · intro k hk hs
    have happ := removals_append cliInit id (tr.take k) (tr.drop k)
    rw [List.take_append_drop] at happ
    have hpos := removals_pos id (tr.drop k) (execTable cliInit (tr.take k)) hk hs
    omega
  · intro st op hin hout
    cases op with
    | request i meth now =>
      exfalso
      by_cases hr : st.rejected = true
      · rw [stepTable_request_rejected st i meth now hr] at hout
        rw [hin] at hout
        exact absurd hout (by simp)
      · have hsent := stepTable_request_sent st i meth now (by simpa using hr)
        have : mapHas id (stepTable st (.request i meth now)).sentMessages = true := by
          rw [hsent]
          exact (mapHas_mapSet_iff id i ⟨meth, now⟩ st.sentMessages).mpr (Or.inl hin)
        rw [this] at hout
        exact absurd hout (by simp)
    | response i =>
      by_cases hi : i = id
      · exact Or.inl (by rw [hi])
      · exfalso
        have : mapHas id (stepTable st (.response i)).sentMessages = true := by
          rw [stepTable_response_sent]
          exact (mapHas_mapDelete_iff id i st.sentMessages).mpr ⟨hin, fun h => hi h.symm⟩
        rw [this] at hout
        exact absurd hout (by simp)
    | dispose => exact Or.inr rfl
    | reject =>
      exfalso
      rw [stepTable_reject_sent] at hout
      rw [hin] at hout
      exact absurd hout (by simp)

/-- Witness for claim C2 on a concrete request/response trace. -/
theorem C2_witness :
    (requestIds [TableOp.request 1 "textDocument/hover" 0, TableOp.response 1]).Nodup ∧
    (removals cliInit 1 [TableOp.request 1 "textDocument/hover" 0, TableOp.response 1] ≤ 1 ∧
     (∀ k, mapHas 1 (execTable cliInit
          ([TableOp.request 1 "textDocument/hover" 0, TableOp.response 1].take k)).sentMessages = true →
        (TableOp.response 1 ∈ [TableOp.request 1 "textDocument/hover" 0, TableOp.response 1].drop k ∨
         TableOp.dispose ∈ [TableOp.request 1 "textDocument/hover" 0, TableOp.response 1].drop k) →
        removals cliInit 1 [TableOp.request 1 "textDocument/hover" 0, TableOp.response 1] = 1) ∧
     (∀ st : CliState, ∀ op : TableOp, mapHas 1 st.sentMessages = true →
        mapHas 1 (stepTable st op).sentMessages = false →
        op = .response 1 ∨ op = .dispose)) :=
  ⟨by decide, C2_pending_entry_removed_exactly_once
    [TableOp.request 1 "textDocument/hover" 0, TableOp.response 1] 1 (by decide)⟩

end GodotLsp

namespace GodotLsp

/-! ### Reader dispatch order (claim C7 amended) -/

theorem reader_inv_exec (tr : List ReaderEvent) :
    ∀ st st', execReader st tr = some st' → allSyncTrace tr = true →
      invReader st → invReader st' := by
  induction tr with
  | nil =>
    intro st st' h _ hinv
    simp only [execReader] at h
    cases h
    exact hinv
  | cons e tr ih =>
    intro st st' h hsync hinv
    cases hstep : stepReader st e with
    | none => rw [execReader, hstep] at h; cases h
    | some st1 =>
      rw [execReader, hstep] at h
      have hsync' : allSyncTrace tr = true := by
        simp only [allSyncTrace, List.all_cons, Bool.and_eq_true] at hsync
        exact hsync.2
      refine ih st1 st' h hsync' ?_
      obtain ⟨hw, hb, hd⟩ := hinv
      cases e with
      | arrive b =>
        have hbf : b = false := by
          simp only [allSyncTrace, List.all_cons, Bool.and_eq_true] at hsync
          simpa using hsync.1
        subst hbf
        simp only [stepReader, Option.some.injEq] at hstep
        subst hstep
        refine ⟨hw, ?_, ?_⟩
        · simp only [List.all_append, List.all_cons, List.all_nil, Bool.and_eq_true]
          exact ⟨hb, by simp⟩
        · simp only [List.map_append, List.map_cons, List.map_nil]
          rw [← List.append_assoc, hd, List.range_succ]
      | deliverSync =>
        cases hbuf : st.buffer with
        | nil =>
          simp only [stepReader, hbuf] at hstep
          exact Option.noConfusion hstep
        | cons m rest =>
          simp only [stepReader, hbuf] at hstep
          by_cases hm : m.isResponse = true
          · rw [if_pos hm] at hstep
            exact Option.noConfusion hstep
          · rw [if_neg hm] at hstep
            simp only [Option.some.injEq] at hstep
            subst hstep
            rw [hbuf] at hb hd
            simp only [List.all_cons, Bool.and_eq_true] at hb
            refine ⟨hw, hb.2, ?_⟩
            simp only [List.map_append, List.map_cons, List.map_nil] at hd ⊢
            rw [List.append_assoc]
            simpa using hd
      | suspendAsync =>
        cases hbuf : st.buffer with
        | nil =>
          simp only [stepReader, hbuf] at hstep
          exact Option.noConfusion hstep
        | cons m rest =>
          rw [hbuf] at hb
          simp only [List.all_cons, Bool.and_eq_true] at hb
          have hm : m.isResponse = false := by simpa using hb.1
          simp only [stepReader, hbuf] at hstep
          rw [if_neg (by simp [hm])] at hstep
          exact Option.noConfusion hstep
      | resolveAsync k =>
        simp only [stepReader, hw, List.getElem?_nil] at hstep
        exact Option.noConfusion hstep

/-- Claim C7 amended: messages are dispatched in arrival order provided every
filter invocation is synchronous (no message is a response handed to an
asynchronous response filter); when the response filter suspends, a
later-arriving message can be dispatched first, as the counterexample shows. -/
theorem C7_amended_sync_dispatch_in_order (tr : List ReaderEvent) (st : ReaderState)
    (h : execReader readerInit tr = some st) (hsync : allSyncTrace tr = true) :
    (st.delivered.map RMsg.idx).Sorted (· < ·) := by
  have hinv := reader_inv_exec tr readerInit st h hsync ⟨rfl, rfl, rfl⟩
  obtain ⟨_, _, hd⟩ := hinv
  have hsub : (st.delivered.map RMsg.idx).Sublist (List.range st.nextIdx) := by
    rw [← hd]
    exact List.sublist_append_left _ _
  exact (List.pairwise_lt_range st.nextIdx).sublist hsub

/-- Witness for the amended claim C7 on a concrete all-notification trace. -/
theorem C7_amended_witness :
    execReader readerInit [.arrive false, .deliverSync, .arrive false, .deliverSync]
      = some ⟨2, [], [], [⟨0, false⟩, ⟨1, false⟩]⟩ ∧
    allSyncTrace [ReaderEvent.arrive false, .deliverSync, .arrive false, .deliverSync] = true ∧
    (((⟨2, [], [], [⟨0, false⟩, ⟨1, false⟩]⟩ : ReaderState).delivered.map RMsg.idx).Sorted (· < ·)) :=
  ⟨by decide, by decide,
    C7_amended_sync_dispatch_in_order [.arrive false, .deliverSync, .arrive false, .deliverSync]
      ⟨2, [], [], [⟨0, false⟩, ⟨1, false⟩]⟩ (by decide) (by decide)⟩

end GodotLsp

namespace GodotLsp

/-! ### Write-path ordering (claim C6 amended) -/

theorem range'_snoc (s k : Nat) : List.range' s (k + 1) = List.range' s k ++ [s + k] :=
  List.range'_1_concat s k

theorem range_append_range' (n k : Nat) :
    List.range n ++ List.range' n k = List.range (n + k) := by
  rw [List.range_eq_range', List.range_eq_range']
  have h := List.range'_append_1 0 n k
  simpa [Nat.add_comm k n] using h

theorem cachePush_phase (st : WireState) (m : Nat) : (cachePush st m).phase = st.phase := by
  unfold cachePush; split_ifs <;> rfl

theorem cachePush_wire (st : WireState) (m : Nat) : (cachePush st m).wire = st.wire := by
  unfold cachePush; split_ifs <;> rfl

theorem cachePush_nextId (st : WireState) (m : Nat) : (cachePush st m).nextId = st.nextId := by
  unfold cachePush; split_ifs <;> rfl

theorem stepWire_write (st : WireState) (b : Bool) :
    stepWire st (.write b)
      = some (if st.phase = .opened then
          if st.draining then cachePush { st with nextId := st.nextId + 1 } st.nextId
          else { st with nextId := st.nextId + 1, wire := st.wire ++ [st.nextId], draining := b }
        else cachePush { st with nextId := st.nextId + 1 } st.nextId) := rfl

theorem invWire_cachePush_connecting (st : WireState) (hphase : st.phase = .connecting)
    (nn : Nat) (hle : nn ≤ st.nextId) (hwire : st.wire.Sublist (List.range nn))
    (hcache : st.messageCache.Sublist (List.range' nn (st.nextId - nn))) :
    invWire (cachePush { st with nextId := st.nextId + 1 } st.nextId) := by
  have hrange : List.range' nn (st.nextId + 1 - nn)
      = List.range' nn (st.nextId - nn) ++ [st.nextId] := by
    have h1 : st.nextId + 1 - nn = (st.nextId - nn) + 1 := by omega
    have h2 : nn + (st.nextId - nn) = st.nextId := by omega
    rw [h1, range'_snoc, h2]
  simp only [invWire, cachePush_phase, hphase]
  refine ⟨nn, by simp [cachePush_nextId]; omega, ?_, ?_⟩
  · rw [cachePush_wire]
    exact hwire
  · rw [cachePush_nextId]
    unfold cachePush
    split_ifs
    · simp only [hrange]
      exact hcache.append (List.Sublist.refl _)
    · rw [hrange]
      exact hcache.trans (List.sublist_append_left _ _)

theorem wire_inv_exec (tr : List WireEvent) :
    ∀ st st', execWire st tr = some st' → invWire st → invWire st' := by
  induction tr with
  | nil =>
    intro st st' h hinv
    simp only [execWire] at h
    cases h
    exact hinv
  | cons e tr ih =>
    intro st st' h hinv
    cases hstep : stepWire st e with
    | none => rw [execWire, hstep] at h; cases h
    | some st1 =>
      rw [execWire, hstep] at h
      refine ih st1 st' h ?_
      cases e with
      | write bufferFull =>
        rw [stepWire_write] at hstep
        simp only [Option.some.injEq] at hstep
        subst hstep
        cases hphase : st.phase with
        | idle =>
          rw [if_neg (by simp [hphase])]
          simp only [invWire, hphase] at hinv
          simp only [invWire, cachePush_phase, hphase, cachePush_wire, cachePush_nextId]
          exact hinv.trans (List.range_sublist.mpr (by omega))
        | connecting =>
          rw [if_neg (by simp [hphase])]
          simp only [invWire, hphase] at hinv
          obtain ⟨nn, hle, hwire, hcache⟩ := hinv
          have hres := invWire_cachePush_connecting st hphase nn hle hwire hcache
          rw [hphase] at hres
          exact hres
        | opened =>
          rw [if_pos (by simp [hphase])]
          simp only [invWire, hphase] at hinv
          by_cases hdr : st.draining = true
          · rw [if_pos (by simp [hdr])]
            simp only [invWire, cachePush_phase, hphase, cachePush_wire, cachePush_nextId]
            exact hinv.trans (List.range_sublist.mpr (by omega))
          · rw [if_neg (by simp [hdr])]
            simp only [invWire, hphase]
            rw [List.range_succ]
            exact hinv.append (List.Sublist.refl _)
      | drain =>
        simp only [stepWire] at hstep
        by_cases hphase : st.phase = .opened
        · rw [if_pos hphase] at hstep
          simp only [Option.some.injEq] at hstep
          subst hstep
          simp only [invWire, hphase] at hinv ⊢
          exact hinv
        · rw [if_neg hphase] at hstep
          exact Option.noConfusion hstep
      | connectStart =>
        simp only [stepWire, Option.some.injEq] at hstep
        subst hstep
        simp only [invWire]
        refine ⟨st.nextId, Nat.le_refl _, ?_, ?_⟩
        · cases hphase : st.phase
          all_goals simp only [invWire, hphase] at hinv
          · exact hinv
          · obtain ⟨nn, hle, hwire, _⟩ := hinv
            exact hwire.trans (List.range_sublist.mpr hle)
          · exact hinv
        · simp only [Nat.sub_self, List.range'_zero]
          exact List.nil_sublist _
      | connectDone =>
        simp only [stepWire] at hstep
        by_cases hphase : st.phase = .connecting
        · rw [if_pos hphase] at hstep
          simp only [Option.some.injEq] at hstep
          subst hstep
          simp only [invWire, hphase] at hinv
          obtain ⟨nn, hle, hwire, hcache⟩ := hinv
          simp only [invWire]
          have h2 : nn + (st.nextId - nn) = st.nextId := by omega
          have := hwire.append hcache
          rw [range_append_range', h2] at this
          exact this
        · rw [if_neg hphase] at hstep
          exact Option.noConfusion hstep
      | disconnect =>
        simp only [stepWire] at hstep
        by_cases hphase : st.phase ≠ .idle
        · rw [if_pos hphase] at hstep
          simp only [Option.some.injEq] at hstep
          subst hstep
          simp only [invWire]
          cases hp : st.phase
          all_goals simp only [invWire, hp] at hinv
          · exact hinv
          · obtain ⟨nn, hle, hwire, _⟩ := hinv
            exact hwire.trans (List.range_sublist.mpr hle)
          · exact hinv
        · rw [if_neg hphase] at hstep
          exact Option.noConfusion hstep

/-- Claim C6 amended: the frames that reach the socket are an
order-preserving subsequence of the write calls (in particular they appear on
the wire in write-call order, and frames cached while disconnected are
flushed FIFO on connect); however a frame queued under backpressure is never
flushed into the current connection — the next connect clears it — so a later
write can reach the wire while an earlier queued frame is dropped, as the
counterexample shows. -/
theorem C6_amended_wire_subsequence (tr : List WireEvent) (st : WireState)
    (h : execWire wireInit tr = some st) :
    st.wire.Sublist (List.range st.nextId) ∧ st.wire.Sorted (· < ·) := by
  have hinv := wire_inv_exec tr wireInit st h (by simp [invWire, wireInit])
  have hsub : st.wire.Sublist (List.range st.nextId) := by
    cases hphase : st.phase
    all_goals simp only [invWire, hphase] at hinv
    · exact hinv
    · obtain ⟨nn, hle, hwire, _⟩ := hinv
      exact hwire.trans (List.range_sublist.mpr hle)
    · exact hinv
  exact ⟨hsub, (List.pairwise_lt_range st.nextId).sublist hsub⟩

/-- Witness for the amended claim C6: a trace with a pre-connect cached
frame, a backpressured frame, and direct writes; the wire carries frames
0, 1, 3 in write order. -/
theorem C6_amended_witness :
    execWire wireInit
        [.connectStart, .write false, .connectDone, .write true, .write false, .drain, .write false]
      = some ⟨.opened, false, [2], [0, 1, 3], [0, 2], 4⟩ ∧
    ((⟨.opened, false, [2], [0, 1, 3], [0, 2], 4⟩ : WireState).wire.Sublist
        (List.range (⟨.opened, false, [2], [0, 1, 3], [0, 2], 4⟩ : WireState).nextId) ∧
     (⟨.opened, false, [2], [0, 1, 3], [0, 2], 4⟩ : WireState).wire.Sorted (· < ·)) :=
  ⟨by decide,
    C6_amended_wire_subsequence
      [.connectStart, .write false, .connectDone, .write true, .write false, .drain, .write false]
      ⟨.opened, false, [2], [0, 1, 3], [0, 2], 4⟩ (by decide)⟩

end GodotLsp

namespace GodotLsp

/-! ### Socket lifecycle under settled connects (claim C1 amended) -/

theorem setSockAt_length (l : List Sock) (i : Nat) (f : Sock → Sock) :
    (setSockAt l i f).length = l.length := by
  unfold setSockAt
  cases l[i]? <;> simp

theorem setSockAt_getElem? (l : List Sock) (i j : Nat) (f : Sock → Sock) :
    (setSockAt l i f)[j]? = if j = i then Option.map f l[i]? else l[j]? := by
  unfold setSockAt
  cases hl : l[i]? with
  | none =>
    split_ifs with hj
    · subst hj
      rw [hl]
      rfl
    · rfl
  | some s =>
    split_ifs with hj
    · subst hj
      rw [List.getElem?_set_self', hl]
      rfl
    · exact List.getElem?_set_ne (fun hh => hj hh.symm)

theorem settledB_spec (st : IoState) (h : settledB st = true) :
    ∀ j s, st.sockets[j]? = some s → s.destroyed = true ∨ st.current = some j := by
  intro j s hj
  unfold settledB at h
  rw [List.all_eq_true] at h
  have hjlt : j < st.sockets.length := by
    by_contra hge
    rw [List.getElem?_eq_none (by omega)] at hj
    cases hj
  have h2 := h j (List.mem_range.mpr hjlt)
  rw [hj] at h2
  simp only [Bool.or_eq_true, decide_eq_true_eq] at h2
  exact h2

theorem execIo_append (t1 t2 : List SockEvent) :
    ∀ st, execIo st (t1 ++ t2)
      = match execIo st t1 with
        | some st1 => execIo st1 t2
        | none => none := by
  induction t1 with
  | nil => intro st; rfl
  | cons e t1 ih =>
    intro st
    cases hstep : stepIo st e with
    | none => simp only [List.cons_append, execIo, hstep]
    | some st1 =>
      simp only [List.cons_append, execIo, hstep]
      exact ih st1

theorem settledConnects_append (t1 t2 : List SockEvent) :
    ∀ st, settledConnects st (t1 ++ t2) = true → settledConnects st t1 = true := by
  induction t1 with
  | nil => intro st _; rfl
  | cons e t1 ih =>
    intro st h
    simp only [List.cons_append, settledConnects, Bool.and_eq_true] at h ⊢
    refine ⟨h.1, ?_⟩
    have h2 := h.2
    cases hstep : stepIo st e with
    | none =>
      rw [hstep] at h2
      cases h2
    | some st1 =>
      rw [hstep] at h2
      exact ih st1 h2

theorem execIo_length (tr : List SockEvent) :
    ∀ st st', execIo st tr = some st' →
      st'.sockets.length = st.sockets.length + countConnectCalls tr := by
  induction tr with
  | nil =>
    intro st st' h
    simp only [execIo] at h
    cases h
    simp [countConnectCalls]
  | cons e tr ih =>
    intro st st' h
    cases hstep : stepIo st e with
    | none => rw [execIo, hstep] at h; cases h
    | some st1 =>
      rw [execIo, hstep] at h
      have hcnt : countConnectCalls (e :: tr)
          = (if e = .connectCall then 1 else 0) + countConnectCalls tr := by
        simp only [countConnectCalls, List.filter_cons]
        split_ifs <;> simp_all [Nat.add_comm]
      have hlen1 : st1.sockets.length
          = st.sockets.length + (if e = .connectCall then 1 else 0) := by
        cases e with
        | connectCall =>
          cases hc : st.current with
          | none =>
            simp only [stepIo, hc, Option.some.injEq] at hstep
            subst hstep
            simp
          | some sid =>
            simp only [stepIo, hc, Option.some.injEq] at hstep
            subst hstep
            simp [setSockAt_length]
        | sockConnect sid =>
          cases hs : st.sockets[sid]? with
          | none => simp only [stepIo, hs] at hstep; exact Option.noConfusion hstep
          | some sck =>
            simp only [stepIo, hs] at hstep
            by_cases hg : (sck.listeners && !sck.destroyed && !sck.connectedTcp) = true
            · rw [if_pos hg] at hstep
              simp only [Option.some.injEq] at hstep
              subst hstep
              simp
            · rw [if_neg hg] at hstep
              exact Option.noConfusion hstep
        | sockError sid =>
          cases hs : st.sockets[sid]? with
          | none => simp only [stepIo, hs] at hstep; exact Option.noConfusion hstep
          | some sck =>
            simp only [stepIo, hs] at hstep
            by_cases hg : (sck.listeners && !sck.destroyed) = true
            · rw [if_pos hg] at hstep
              simp only [Option.some.injEq] at hstep
              subst hstep
              simp
            · rw [if_neg hg] at hstep
              exact Option.noConfusion hstep
        | sockClose sid =>
          cases hs : st.sockets[sid]? with
          | none => simp only [stepIo, hs] at hstep; exact Option.noConfusion hstep
          | some sck =>
            simp only [stepIo, hs] at hstep
            by_cases hg : (sck.listeners && !sck.destroyed) = true
            · rw [if_pos hg] at hstep
              simp only [Option.some.injEq] at hstep
              subst hstep
              simp
            · rw [if_neg hg] at hstep
              exact Option.noConfusion hstep
        | connTimeout sid =>
          cases hs : st.sockets[sid]? with
          | none => simp only [stepIo, hs] at hstep; exact Option.noConfusion hstep
          | some sck =>
            simp only [stepIo, hs] at hstep
            by_cases hg : (sck.listeners && !sck.destroyed && !sck.connectedTcp) = true
            · rw [if_pos hg] at hstep
              simp only [Option.some.injEq] at hstep
              subst hstep
              simp
            · rw [if_neg hg] at hstep
              exact Option.noConfusion hstep
      have := ih st1 st' h
      omega

end GodotLsp

namespace GodotLsp

theorem invIo_exec (tr : List SockEvent) :
    ∀ st st', execIo st tr = some st' → settledConnects st tr = true →
      invIo st → invIo st' := by
  induction tr with
  | nil =>
    intro st st' h _ hinv
    simp only [execIo] at h
    cases h
    exact hinv
  | cons e tr ih =>
    intro st st' h hset hinv
    cases hstep : stepIo st e with
    | none => rw [execIo, hstep] at h; cases h
    | some st1 =>
      rw [execIo, hstep] at h
      have hset2 := hset
      simp only [settledConnects, hstep, Bool.and_eq_true] at hset2
      refine ih st1 st' h hset2.2 ?_
      cases e with
      | connectCall =>
        have hsb : settledB st = true := hset2.1
        have hdestroyed : ∀ (j : Nat) (s : Sock), st.sockets[j]? = some s → st.current = none →
            s.destroyed = true := by
          intro j s hj hc
          rcases settledB_spec st hsb j s hj with hd | hcur
          · exact hd
          · rw [hc] at hcur
            cases hcur
        cases hc : st.current with
        | none =>
          simp only [stepIo, hc, Option.some.injEq] at hstep
          subst hstep
          intro j s hj hd
          dsimp only at hj ⊢
          rw [List.length_append, List.length_singleton]
          by_cases hjl : j < st.sockets.length
          · rw [List.getElem?_append_left hjl] at hj
            have := hdestroyed j s hj hc
            rw [this] at hd
            cases hd
          · rw [List.getElem?_append_right (by omega)] at hj
            by_cases hj2 : j = st.sockets.length
            · omega
            · obtain ⟨k, hk⟩ : ∃ k, j - st.sockets.length = k + 1 :=
                ⟨j - st.sockets.length - 1, by omega⟩
              rw [hk] at hj
              simp at hj
        | some sid =>
          simp only [stepIo, hc, Option.some.injEq] at hstep
          subst hstep
          intro j s hj hd
          dsimp only at hj ⊢
          rw [List.length_append, List.length_singleton, setSockAt_length]
          by_cases hjl : j < st.sockets.length
          · rw [List.getElem?_append_left (by rw [setSockAt_length]; omega)] at hj
            rw [setSockAt_getElem?] at hj
            by_cases hjs : j = sid
            · rw [if_pos hjs] at hj
              cases hs0 : st.sockets[sid]? with
              | none => rw [hs0] at hj; cases hj
              | some s0 =>
                rw [hs0] at hj
                simp only [Option.map_some', Option.some.injEq] at hj
                rw [← hj] at hd
                cases hd
            · rw [if_neg hjs] at hj
              rcases settledB_spec st hsb j s hj with hdd | hcur
              · rw [hdd] at hd
                cases hd
              · rw [hc] at hcur
                simp only [Option.some.injEq] at hcur
                exact absurd hcur.symm hjs
          · rw [List.getElem?_append_right (by rw [setSockAt_length]; omega)] at hj
            rw [setSockAt_length] at hj
            by_cases hj2 : j = st.sockets.length
            · omega
            · obtain ⟨k, hk⟩ : ∃ k, j - st.sockets.length = k + 1 :=
                ⟨j - st.sockets.length - 1, by omega⟩
              rw [hk] at hj
              simp at hj
      | sockConnect sid =>
        cases hs : st.sockets[sid]? with
        | none => simp only [stepIo, hs] at hstep; exact Option.noConfusion hstep
        | some sck =>
          simp only [stepIo, hs] at hstep
          by_cases hg : (sck.listeners && !sck.destroyed && !sck.connectedTcp) = true
          · rw [if_pos hg] at hstep
            simp only [Option.some.injEq] at hstep
            subst hstep
            intro j s' hj hd
            simp [List.length_set]
            by_cases hjs : j = sid
            · subst hjs
              have hdf : sck.destroyed = false := by
                simp only [Bool.and_eq_true, Bool.not_eq_true'] at hg
                exact hg.1.2
              exact hinv j sck hs hdf
            · rw [List.getElem?_set_ne (fun hh => hjs hh.symm)] at hj
              exact hinv j s' hj hd
          · rw [if_neg hg] at hstep
            exact Option.noConfusion hstep
      | sockError sid =>
        cases hs : st.sockets[sid]? with
        | none => simp only [stepIo, hs] at hstep; exact Option.noConfusion hstep
        | some sck =>
          simp only [stepIo, hs] at hstep
          by_cases hg : (sck.listeners && !sck.destroyed) = true
          · rw [if_pos hg] at hstep
            simp only [Option.some.injEq] at hstep
            subst hstep
            intro j s' hj hd
            simp [List.length_set]
            by_cases hjs : j = sid
            · subst hjs
              rw [List.getElem?_set_self', hs] at hj
              have hj2 : some (teardownSock sck) = some s' := hj
              rw [← Option.some.inj hj2] at hd
              simp [teardownSock] at hd
            · rw [List.getElem?_set_ne (fun hh => hjs hh.symm)] at hj
              exact hinv j s' hj hd
          · rw [if_neg hg] at hstep
            exact Option.noConfusion hstep
      | sockClose sid =>
        cases hs : st.sockets[sid]? with
        | none => simp only [stepIo, hs] at hstep; exact Option.noConfusion hstep
        | some sck =>
          simp only [stepIo, hs] at hstep
          by_cases hg : (sck.listeners && !sck.destroyed) = true
          · rw [if_pos hg] at hstep
            simp only [Option.some.injEq] at hstep
            subst hstep
            intro j s' hj hd
            simp [List.length_set]
            by_cases hjs : j = sid
            · subst hjs
              rw [List.getElem?_set_self', hs] at hj
              have hj2 : some (teardownSock sck) = some s' := hj
              rw [← Option.some.inj hj2] at hd
              simp [teardownSock] at hd
            · rw [List.getElem?_set_ne (fun hh => hjs hh.symm)] at hj
              exact hinv j s' hj hd
          · rw [if_neg hg] at hstep
            exact Option.noConfusion hstep
      | connTimeout sid =>
        cases hs : st.sockets[sid]? with
        | none => simp only [stepIo, hs] at hstep; exact Option.noConfusion hstep
        | some sck =>
          simp only [stepIo, hs] at hstep
          by_cases hg : (sck.listeners && !sck.destroyed && !sck.connectedTcp) = true
          · rw [if_pos hg] at hstep
            simp only [Option.some.injEq] at hstep
            subst hstep
            intro j s' hj hd
            simp [List.length_set]
            by_cases hjs : j = sid
            · subst hjs
              rw [List.getElem?_set_self', hs] at hj
              have hj2 : some (teardownSock sck) = some s' := hj
              rw [← Option.some.inj hj2] at hd
              simp [teardownSock] at hd
            · rw [List.getElem?_set_ne (fun hh => hjs hh.symm)] at hj
              exact hinv j s' hj hd
          · rw [if_neg hg] at hstep
            exact Option.noConfusion hstep

theorem filter_length_le_one {α : Type} (p : α → Bool) (l : List α)
    (h : ∀ i a, l[i]? = some a → p a = true → i + 1 = l.length) :
    (l.filter p).length ≤ 1 := by
  induction l with
  | nil => simp
  | cons x xs ih =>
    cases hp : p x with
    | false =>
      rw [List.filter_cons_of_neg (by simp [hp])]
      refine ih ?_
      intro i a hia hpa
      have := h (i + 1) a (by simpa using hia) hpa
      simpa using this
    | true =>
      have h0 := h 0 x (by simp) hp
      simp only [List.length_cons] at h0
      have hxs : xs = [] := List.length_eq_zero.mp (by omega)
      subst hxs
      simp [List.filter_cons, hp]

theorem openCount_le_one (st : IoState) (hinv : invIo st) : openCount st ≤ 1 := by
  unfold openCount
  refine filter_length_le_one _ _ ?_
  intro i a hia hpa
  have hdf : a.destroyed = false := by
    simp only [Bool.and_eq_true, Bool.not_eq_true'] at hpa
    exact hpa.2
  exact hinv i a hia hdf

theorem stepIo_fires_last (st st1 : IoState) (e : SockEvent) (sid : Nat)
    (hstep : stepIo st e = some st1) (hf : firesOn e = some sid) (hinv : invIo st) :
    sid + 1 = st.sockets.length := by
  cases e with
  | connectCall => cases hf
  | sockConnect sid' =>
    simp only [firesOn, Option.some.injEq] at hf
    subst hf
    cases hs : st.sockets[sid']? with
    | none => simp only [stepIo, hs] at hstep; exact Option.noConfusion hstep
    | some sck =>
      simp only [stepIo, hs] at hstep
      by_cases hg : (sck.listeners && !sck.destroyed && !sck.connectedTcp) = true
      · have hdf : sck.destroyed = false := by
          simp only [Bool.and_eq_true, Bool.not_eq_true'] at hg
          exact hg.1.2
        exact hinv sid' sck hs hdf
      · rw [if_neg hg] at hstep
        exact Option.noConfusion hstep
  | sockError sid' =>
    simp only [firesOn, Option.some.injEq] at hf
    subst hf
    cases hs : st.sockets[sid']? with
    | none => simp only [stepIo, hs] at hstep; exact Option.noConfusion hstep
    | some sck =>
      simp only [stepIo, hs] at hstep
      by_cases hg : (sck.listeners && !sck.destroyed) = true
      · have hdf : sck.destroyed = false := by
          simp only [Bool.and_eq_true, Bool.not_eq_true'] at hg
          exact hg.2
        exact hinv sid' sck hs hdf
      · rw [if_neg hg] at hstep
        exact Option.noConfusion hstep
  | sockClose sid' =>
    simp only [firesOn, Option.some.injEq] at hf
    subst hf
    cases hs : st.sockets[sid']? with
    | none => simp only [stepIo, hs] at hstep; exact Option.noConfusion hstep
    | some sck =>
      simp only [stepIo, hs] at hstep
      by_cases hg : (sck.listeners && !sck.destroyed) = true
      · have hdf : sck.destroyed = false := by
          simp only [Bool.and_eq_true, Bool.not_eq_true'] at hg
          exact hg.2
        exact hinv sid' sck hs hdf
      · rw [if_neg hg] at hstep
        exact Option.noConfusion hstep
  | connTimeout sid' =>
    simp only [firesOn, Option.some.injEq] at hf
    subst hf
    cases hs : st.sockets[sid']? with
    | none => simp only [stepIo, hs] at hstep; exact Option.noConfusion hstep
    | some sck =>
      simp only [stepIo, hs] at hstep
      by_cases hg : (sck.listeners && !sck.destroyed && !sck.connectedTcp) = true
      · have hdf : sck.destroyed = false := by
          simp only [Bool.and_eq_true, Bool.not_eq_true'] at hg
          exact hg.1.2
        exact hinv sid' sck hs hdf
      · rw [if_neg hg] at hstep
        exact Option.noConfusion hstep

/-- Claim C1 amended: provided every `connect` call is issued only when the
previous attempt has settled (every live socket is the one recorded in
`this.socket`), at most one socket is ever open and no handler of a socket
created by an earlier `connect` call fires after a later `connect` begins.
Without that proviso the claim is false: a `connect` issued while a previous
attempt is still in flight leaves the in-flight socket alive with its
handlers attached, as the counterexample shows. -/
theorem C1_amended_settled_connects (tr : List SockEvent) (st : IoState)
    (hexec : execIo ioInit tr = some st)
    (hsettled : settledConnects ioInit tr = true) :
    openCount st ≤ 1 ∧
    ∀ t1 e t2 sid, tr = t1 ++ e :: t2 → firesOn e = some sid →
      sid + 1 = countConnectCalls t1 := by
  have hinv0 : invIo ioInit := by
    intro i s h1 _
    simp [ioInit] at h1
  constructor
  · exact openCount_le_one st (invIo_exec tr ioInit st hexec hsettled hinv0)
  · intro t1 e t2 sid hdecomp hf
    subst hdecomp
    have happ := execIo_append t1 (e :: t2) ioInit
    rw [hexec] at happ
    cases hex1 : execIo ioInit t1 with
    | none => rw [hex1] at happ; cases happ
    | some st1 =>
      rw [hex1] at happ
      have hset1 : settledConnects ioInit t1 = true :=
        settledConnects_append t1 (e :: t2) ioInit hsettled
      have hinv1 : invIo st1 := invIo_exec t1 ioInit st1 hex1 hset1 hinv0
      have hlen : st1.sockets.length = countConnectCalls t1 := by
        have := execIo_length t1 ioInit st1 hex1
        simpa [ioInit] using this
      cases hstep : stepIo st1 e with
      | none =>
        dsimp only at happ
        rw [execIo, hstep] at happ
        dsimp only at happ
        cases happ
      | some st2 =>
        have := stepIo_fires_last st1 st2 e sid hstep hf hinv1
        omega

/-- Witness for the amended claim C1: a settled reconnect sequence — connect,
TCP established, socket error, fresh connect, TCP established — keeps one
open socket and never fires a handler of a superseded socket. -/
theorem C1_amended_witness :
    execIo ioInit [.connectCall, .sockConnect 0, .sockError 0, .connectCall, .sockConnect 1]
      = some ⟨[⟨true, true, false⟩, ⟨true, false, true⟩], some 1⟩ ∧
    settledConnects ioInit
      [.connectCall, .sockConnect 0, .sockError 0, .connectCall, .sockConnect 1] = true ∧
    (openCount ⟨[⟨true, true, false⟩, ⟨true, false, true⟩], some 1⟩ ≤ 1 ∧
     ∀ t1 e t2 sid,
       [SockEvent.connectCall, .sockConnect 0, .sockError 0, .connectCall, .sockConnect 1]
         = t1 ++ e :: t2 → firesOn e = some sid → sid + 1 = countConnectCalls t1) :=
  ⟨by decide, by decide,
    C1_amended_settled_connects
      [.connectCall, .sockConnect 0, .sockError 0, .connectCall, .sockConnect 1]
      ⟨[⟨true, true, false⟩, ⟨true, false, true⟩], some 1⟩ (by decide) (by decide)⟩

end GodotLsp
